import Mathlib

/-!
A shallow embedding of `lib/printfmt.c`: the recursive numeric renderer
`printnum`, the sized argument extraction `getint`/`getuint`, the
`vprintfmt` directive parser and formatting engine (with the `%B`/`%F`/`%C`
attribute extension), the `%e` error-table lookup, and the bounded-buffer
sink `sprintputch`/`vsnprintf` — together with theorems checking the
specification's claims against those definitions.

Modelling conventions: characters are natural numbers (byte values,
possibly with attribute bits above bit 7); a format string is a byte
memory `Nat → Nat` read through a cursor, so that the engine's pointer
arithmetic (including reads past a terminator) is representable; the
variadic argument list is an explicit list of typed argument cells; the
scanning loops, which are not structurally recursive, take a fuel
parameter, `none` meaning the fuel ran out.  Recursions of the C code
that always terminate (the digit recursion of `printnum`) are given a
structural fuel argument that provably never runs out, so that every
definition evaluates inside the kernel.
-/

/-- The digit alphabet `"0123456789abcdef"` of `printnum`, as byte values. -/
def hexdigit (n : Nat) : Nat :=
  [48, 49, 50, 51, 52, 53, 54, 55, 56, 57, 97, 98, 99, 100, 101, 102].getD n 0

/-- Fuelled form of the base-`b` digit list of `v`, most significant first.
The guard's `2 ≤ b` conjunct only excludes bases 0 and 1, on which the C
recursion would not terminate; the engine only uses bases 8, 10 and 16. -/
def digitsOfF : Nat → Nat → Nat → List Nat
  | 0, v, b => [v % b]
  | f + 1, v, b => if 2 ≤ b ∧ b ≤ v then digitsOfF f (v / b) b ++ [v % b] else [v % b]

/-- The base-`b` digits of `v`, most significant first (the digit sequence
the spec says the numeric renderer must produce; `digitsOf 0 b = [0]`).
Fuel `v` always suffices, see `digitsOfF_congr`. -/
def digitsOf (v b : Nat) : List Nat := digitsOfF v v b

/-- The number of base-`b` digits of `v` (1 for `v = 0`): the recursion
depth of `printnum`. -/
def digitCount (v b : Nat) : Nat := (digitsOf v b).length

/-- Fuelled form of `printnum` from printfmt.c: recursively print the more
significant digits (consuming one unit of width per level), emit
`max (width-1) 0` copies of the pad character before the first digit, then
the least significant digit, OR-ing the attribute bits `padc &&& 0xff00`
into it. -/
def printnumF : Nat → Nat → Nat → Int → Nat → List Nat
  | 0, num, base, width, padc =>
    List.replicate (width - 1).toNat padc ++ [hexdigit (num % base) ||| (padc &&& 0xff00)]
  | f + 1, num, base, width, padc =>
    if 2 ≤ base ∧ base ≤ num then
      printnumF f (num / base) base (width - 1) padc
        ++ [hexdigit (num % base) ||| (padc &&& 0xff00)]
    else
      List.replicate (width - 1).toNat padc ++ [hexdigit (num % base) ||| (padc &&& 0xff00)]

/-- `printnum num base width padc`: the characters handed to `putch` by the
numeric renderer.  Fuel `num` always suffices, see `printnumF_congr`. -/
def printnum (num base : Nat) (width : Int) (padc : Nat) : List Nat :=
  printnumF num num base width padc

/-- Any fuel of at least `v` steps computes the same digit list. -/
theorem digitsOfF_congr :
    ∀ (v f f' b : Nat), v ≤ f → v ≤ f' → digitsOfF f v b = digitsOfF f' v b := by
  intro v
  induction v using Nat.strong_induction_on with
  | _ v ih =>
    intro f f' b hf hf'
    by_cases hg : 2 ≤ b ∧ b ≤ v
    · rcases Nat.exists_eq_succ_of_ne_zero (show f ≠ 0 by omega) with ⟨g, rfl⟩
      rcases Nat.exists_eq_succ_of_ne_zero (show f' ≠ 0 by omega) with ⟨g', rfl⟩
      have hlt : v / b < v := Nat.div_lt_self (by omega) hg.1
      rw [digitsOfF, digitsOfF, if_pos hg, if_pos hg,
          ih (v / b) hlt g g' b (by omega) (by omega)]
    · match f, f' with
      | 0, 0 => rfl
      | 0, g' + 1 => rw [digitsOfF, digitsOfF, if_neg hg]
      | g + 1, 0 => rw [digitsOfF, digitsOfF, if_neg hg]
      | g + 1, g' + 1 => rw [digitsOfF, digitsOfF, if_neg hg, if_neg hg]

/-- Any fuel of at least `num` steps computes the same rendering. -/
theorem printnumF_congr :
    ∀ (num f f' : Nat) (base : Nat) (width : Int) (padc : Nat), num ≤ f → num ≤ f' →
      printnumF f num base width padc = printnumF f' num base width padc := by
  intro num
  induction num using Nat.strong_induction_on with
  | _ num ih =>
    intro f f' base width padc hf hf'
    by_cases hg : 2 ≤ base ∧ base ≤ num
    · rcases Nat.exists_eq_succ_of_ne_zero (show f ≠ 0 by omega) with ⟨g, rfl⟩
      rcases Nat.exists_eq_succ_of_ne_zero (show f' ≠ 0 by omega) with ⟨g', rfl⟩
      have hlt : num / base < num := Nat.div_lt_self (by omega) hg.1
      rw [printnumF, printnumF, if_pos hg, if_pos hg,
          ih (num / base) hlt g g' base (width - 1) padc (by omega) (by omega)]
    · match f, f' with
      | 0, 0 => rfl
      | 0, g' + 1 => rw [printnumF, printnumF, if_neg hg]
      | g + 1, 0 => rw [printnumF, printnumF, if_neg hg]
      | g + 1, g' + 1 => rw [printnumF, printnumF, if_neg hg, if_neg hg]

theorem digitsOf_step (v b : Nat) (h1 : 2 ≤ b) (h2 : b ≤ v) :
    digitsOf v b = digitsOf (v / b) b ++ [v % b] := by
  obtain ⟨g, hg⟩ : ∃ g, v = g + 1 := ⟨v - 1, by omega⟩
  have hlt : v / b < v := Nat.div_lt_self (by omega) h1
  rw [digitsOf, hg, digitsOfF, if_pos ⟨h1, by omega⟩, ← hg,
      digitsOfF_congr (v / b) g (v / b) b (by omega) le_rfl]
  rfl

theorem digitsOf_small (v b : Nat) (h2 : v < b) : digitsOf v b = [v % b] := by
  rw [digitsOf]
  match v with
  | 0 => rfl
  | g + 1 => rw [digitsOfF, if_neg (fun hc => absurd hc.2 (Nat.not_le.mpr h2))]

theorem printnum_step (num base : Nat) (width : Int) (padc : Nat)
    (h1 : 2 ≤ base) (h2 : base ≤ num) :
    printnum num base width padc =
      printnum (num / base) base (width - 1) padc
        ++ [hexdigit (num % base) ||| (padc &&& 0xff00)] := by
  obtain ⟨g, hg⟩ : ∃ g, num = g + 1 := ⟨num - 1, by omega⟩
  have hlt : num / base < num := Nat.div_lt_self (by omega) h1
  rw [printnum, hg, printnumF, if_pos ⟨h1, by omega⟩, ← hg,
      printnumF_congr (num / base) g (num / base) base (width - 1) padc (by omega) le_rfl]
  rfl

theorem printnum_small (num base : Nat) (width : Int) (padc : Nat) (h2 : num < base) :
    printnum num base width padc =
      List.replicate (width - 1).toNat padc
        ++ [hexdigit (num % base) ||| (padc &&& 0xff00)] := by
  rw [printnum]
  match num with
  | 0 => rfl
  | g + 1 => rw [printnumF, if_neg (fun hc => absurd hc.2 (Nat.not_le.mpr h2))]

theorem digitCount_pos (v b : Nat) : 1 ≤ digitCount v b := by
  rw [digitCount, digitsOf]
  match v with
  | 0 => simp [digitsOfF]
  | g + 1 =>
    rw [digitsOfF]
    split <;> simp

theorem digitCount_step (v b : Nat) (h1 : 2 ≤ b) (h2 : b ≤ v) :
    digitCount v b = digitCount (v / b) b + 1 := by
  rw [digitCount, digitCount, digitsOf_step v b h1 h2]
  simp

/-- Full characterisation of `printnum`: the padding block followed by the
attributed digits. -/
theorem printnum_eq (base : Nat) (hb : 2 ≤ base) :
    ∀ (num : Nat) (width : Int) (padc : Nat),
      printnum num base width padc =
        List.replicate (width - (digitCount num base : Int)).toNat padc
          ++ (digitsOf num base).map (fun d => hexdigit d ||| (padc &&& 0xff00)) := by
  intro num
  induction num using Nat.strong_induction_on with
  | _ num ih =>
    intro width padc
    by_cases hnb : base ≤ num
    · have hlt : num / base < num := Nat.div_lt_self (by omega) hb
      rw [printnum_step num base width padc hb hnb,
          ih (num / base) hlt (width - 1) padc,
          digitsOf_step num base hb hnb, digitCount_step num base hb hnb]
      have harith : (width - 1 - (digitCount (num / base) base : Int)).toNat
          = (width - ((digitCount (num / base) base : Int) + 1)).toNat := by
        omega
      rw [harith]
      push_cast
      simp [List.append_assoc]
    · rw [printnum_small num base width padc (Nat.lt_of_not_le hnb),
          digitsOf_small num base (Nat.lt_of_not_le hnb)]
      have hdc : digitCount num base = 1 := by
        rw [digitCount, digitsOf_small num base (Nat.lt_of_not_le hnb)]
        simp
      rw [hdc]
      simp

theorem printnum_length (base : Nat) (hb : 2 ≤ base) (num : Nat) (width : Int) (padc : Nat) :
    (printnum num base width padc).length = max width.toNat (digitCount num base) := by
  rw [printnum_eq base hb num width padc]
  have h1 := digitCount_pos num base
  simp only [List.length_append, List.length_replicate, List.length_map]
  rw [digitCount]
  omega

/-- C1: for every base in 8, 10, 16, every value and every width, `printnum`
emits exactly `max width (digitCount num base)` characters: first
`max (width - digitCount num base) 0` copies of the pad character, then the
base-`base` digits of `num` most significant first, each drawn from
`"0123456789abcdef"` (with the pad character's attribute bits OR'd in);
`num = 0` contributes the single digit `'0'` (byte 48); no truncation by
width or precision ever happens, since the length is the maximum above. -/
theorem C1_printnum_renders_exactly (num base : Nat) (width : Int) (padc : Nat)
    (hb : base = 8 ∨ base = 10 ∨ base = 16) :
    printnum num base width padc =
        List.replicate (width - (digitCount num base : Int)).toNat padc
          ++ (digitsOf num base).map (fun d => hexdigit d ||| (padc &&& 0xff00))
      ∧ (printnum num base width padc).length = max width.toNat (digitCount num base)
      ∧ digitsOf 0 base = [0] ∧ hexdigit 0 = 48 := by
  have h2 : 2 ≤ base := by rcases hb with h | h | h <;> omega
  refine ⟨printnum_eq base h2 num width padc, printnum_length base h2 num width padc, ?_, rfl⟩
  rw [digitsOf]
  rfl

/-- Witness for C1 at a concrete input: value 255, base 16, width 5,
pad character '0'. -/
theorem C1_printnum_renders_exactly_witness :
    printnum 255 16 5 48 =
        List.replicate ((5 : Int) - (digitCount 255 16 : Int)).toNat 48
          ++ (digitsOf 255 16).map (fun d => hexdigit d ||| (48 &&& 0xff00))
      ∧ (printnum 255 16 5 48).length = max (5 : Int).toNat (digitCount 255 16)
      ∧ digitsOf 0 16 = [0] ∧ hexdigit 0 = 48 :=
  C1_printnum_renders_exactly 255 16 5 48 (by decide)


/-- One attributed character handed to the output sink `putch`: `chr` is the
integer passed (character code with attribute bits OR'd in), `att` records
the value of the engine's `attri` variable at the moment of the call, and
`viaE` marks characters emitted by the recursive `printfmt` call inside the
`%e` conversion.  The rendered output is the `chr` projection. -/
structure Emit where
  chr : Nat
  att : Nat
  viaE : Bool
  deriving DecidableEq, Repr

/-- A variadic argument cell as read by `va_arg`: a (signed) integer cell,
a char-pointer cell (`none` models the NULL pointer), or a void-pointer
cell. -/
inductive Arg where
  | int (v : Int)
  | str (s : Option (List Nat))
  | ptr (v : Nat)
  deriving DecidableEq, Repr

/-- Read the next variadic argument.  Reading past the end of the supplied
arguments is undefined behaviour in C; the model returns an integer 0 cell. -/
def takeArg : List Arg → Arg × List Arg
  | [] => (Arg.int 0, [])
  | a :: r => (a, r)

/-- The integer stored in an argument cell (a type-mismatched `va_arg` is
undefined behaviour; the model reads 0). -/
def argInt : Arg → Int
  | Arg.int v => v
  | _ => 0

/-- The char-pointer stored in an argument cell (`none` = NULL). -/
def argStr : Arg → Option (List Nat)
  | Arg.str s => s
  | _ => none

/-- The void-pointer bit pattern stored in an argument cell. -/
def argPtr : Arg → Nat
  | Arg.ptr v => v
  | _ => 0

/-- Reinterpret an integer as a `w`-bit two's-complement value. -/
def signedW (w : Nat) (v : Int) : Int :=
  let m := v % ((2 : Int) ^ w)
  if m < 2 ^ (w - 1) then m else m - 2 ^ w

/-- `getuint` from printfmt.c: an unsigned integer of the width selected by
the accumulated length-modifier count (i386: unsigned int and unsigned long
are 32 bits, unsigned long long is 64 bits). -/
def getuint (lflag : Nat) (a : Arg) : Nat :=
  if 2 ≤ lflag then ((argInt a) % ((2 : Int) ^ 64)).toNat
  else if 1 ≤ lflag then ((argInt a) % ((2 : Int) ^ 32)).toNat
  else ((argInt a) % ((2 : Int) ^ 32)).toNat

/-- `getint` from printfmt.c: a signed integer of the width selected by the
accumulated length-modifier count (i386: int and long are 32 bits, long
long is 64 bits). -/
def getint (lflag : Nat) (a : Arg) : Int :=
  if 2 ≤ lflag then signedW 64 (argInt a)
  else if 1 ≤ lflag then signedW 32 (argInt a)
  else signedW 32 (argInt a)

/-- The bytes of a string literal. -/
def strBytes (s : String) : List Nat := s.toList.map Char.toNat

/-- Modelled from the spec: `MAXERROR`, the size of the error table, comes
from `inc/error.h`, which is not among the sources; the spec describes the
table as indexed by small non-negative codes with intentional gaps, and the
JOS numbering it refers to is E_UNSPECIFIED=1 .. E_FAULT=6 with MAXERROR
the next enumerator, 7. -/
def MAXERROR : Int := 7

/-- `error_string` from printfmt.c: the designated-initialiser table, as a
map from the index to an optional entry (index 0 is a gap).  The index
constants are modelled from the spec as in `MAXERROR`.  A negative index
is an out-of-bounds array read in C; the model makes it an absent entry. -/
def errorString (i : Int) : Option (List Nat) :=
  if i = 1 then some (strBytes "unspecified error")
  else if i = 2 then some (strBytes "bad environment")
  else if i = 3 then some (strBytes "invalid parameter")
  else if i = 4 then some (strBytes "out of memory")
  else if i = 5 then some (strBytes "out of environments")
  else if i = 6 then some (strBytes "segmentation fault")
  else none

/-- The `%e` sign normalisation: `err = va_arg(ap, int); if (err < 0) err = -err;`
— the negation is 32-bit int arithmetic, so it wraps on the most negative
int. -/
def absErr32 (e : Int) : Int :=
  let s := signedW 32 e
  if s < 0 then signedW 32 (-s) else s

/-- `strnlen(p, precision)`: the length of `p` clipped to `precision`.  The
int `precision` is converted to `size_t`; any negative precision (-1 =
unset) becomes a huge bound and behaves as unlimited. -/
def strnlenM (p : List Nat) (precision : Int) : Nat :=
  if precision < 0 then p.length else min p.length precision.toNat

/-- The character-emission loop of the `%s` conversion:
`for (; (ch = *p++) != 0 && (precision < 0 || --precision >= 0); width--)`,
emitting `?` for bytes outside printable ASCII when the alternate flag is
set. -/
def sContent : List Nat → Int → Bool → Nat → List Emit
  | [], _, _, _ => []
  | c :: rest, precision, altflag, attri =>
    if precision = 0 then []
    else
      Emit.mk ((if altflag ∧ (c < 32 ∨ 126 < c) then 63 else c) ||| attri) attri false
        :: sContent rest (if precision < 0 then precision else precision - 1) altflag attri

/-- The body of the `%s` conversion after the NULL substitution: the
left-padding loop (only when width is positive and the pad character is not
`-`), the content loop (which also consumes width), then the right
space-padding loop on whatever width remains. -/
def emitS (p : List Nat) (width precision : Int) (altflag : Bool) (padc attri : Nat) :
    List Emit :=
  let content := sContent p precision altflag attri
  if 0 < width ∧ ¬ padc = 45 then
    let w1 := width - (strnlenM p precision : Int)
    List.replicate w1.toNat (Emit.mk (padc ||| attri) attri false) ++ content
      ++ List.replicate (min w1 0 - (content.length : Int)).toNat
          (Emit.mk (32 ||| attri) attri false)
  else
    content
      ++ List.replicate (width - (content.length : Int)).toNat
          (Emit.mk (32 ||| attri) attri false)

/-- The `%B` attribute update: uppercase B/G/R/I set a background bit,
lowercase clear it (`attri &= ~bit` on a 32-bit int), anything else leaves
the mask unchanged. -/
def applyB (a : Nat) (c : Nat) : Nat :=
  if c = 66 then a ||| 0x1000
  else if c = 71 then a ||| 0x2000
  else if c = 82 then a ||| 0x4000
  else if c = 73 then a ||| 0x8000
  else if c = 98 then a &&& 0xffffefff
  else if c = 103 then a &&& 0xffffdfff
  else if c = 114 then a &&& 0xffffbfff
  else if c = 105 then a &&& 0xffff7fff
  else a

/-- The `%F` attribute update: like `applyB` but for the foreground bits. -/
def applyF (a : Nat) (c : Nat) : Nat :=
  if c = 66 then a ||| 0x100
  else if c = 71 then a ||| 0x200
  else if c = 82 then a ||| 0x400
  else if c = 73 then a ||| 0x800
  else if c = 98 then a &&& 0xfffffeff
  else if c = 103 then a &&& 0xfffffdff
  else if c = 114 then a &&& 0xfffffbff
  else if c = 105 then a &&& 0xfffff7ff
  else a

/-- The digit-accumulation loop of the width/precision case of `vprintfmt`:
returns the accumulated value and the position of the first non-digit
(which the reswitch then consumes). -/
def digitRun (fuel : Nat) (mem : Nat → Nat) (pos acc : Nat) : Option (Nat × Nat) :=
  match fuel with
  | 0 => none
  | f + 1 =>
    if 48 ≤ mem pos ∧ mem pos ≤ 57 then digitRun f mem (pos + 1) (acc * 10 + (mem pos - 48))
    else some (acc, pos)

/-- The rewind loop of the unrecognised-directive case:
`for (fmt--; fmt[-1] != '%'; fmt--)` — step back until the byte before the
cursor is `%`. -/
def rewindB (fuel : Nat) (mem : Nat → Nat) (pos : Nat) : Option Nat :=
  match fuel with
  | 0 => none
  | f + 1 => if mem (pos - 1) = 37 then some pos else rewindB f mem (pos - 1)

/-- A C string constant as a byte memory: the bytes of `s`, then a
terminating 0 at position `s.length`, and 0 at every later position. -/
def cstr (s : List Nat) (i : Nat) : Nat := s.getD i 0

/-- Bytes of the `%e` fallback format `"error %d"`. -/
def errFmtB : List Nat := strBytes "error %d"

/-- Bytes of the `%e` success format `"%s"`. -/
def pctSB : List Nat := [37, 115]

/-- Bytes of the `%s` NULL substitution `"(null)"`. -/
def nullB : List Nat := strBytes "(null)"

/-- Mark an emission as produced inside the `%e` recursion. -/
def tagE (t : Emit) : Emit := Emit.mk t.chr t.att true

mutual

/-- `vprintfmt`: the literal-copy loop.  `mem` is the byte memory holding
the format string, `pos` the cursor, `attri` the persistent attribute mask;
a byte 0 returns, `%` enters the directive scanner with pad ' ', width -1,
precision -1, length count 0, alternate flag clear, and any other byte is
emitted with the mask OR'd in. -/
def runFmt (fuel : Nat) (mem : Nat → Nat) (args : List Arg) (pos attri : Nat) :
    Option (List Emit) :=
  match fuel with
  | 0 => none
  | f + 1 =>
    let ch := mem pos
    if ch = 0 then some []
    else if ch = 37 then
      scanFmt f mem args (pos + 1) (pos + 1) attri 32 (-1) (-1) 0 false
    else
      (runFmt f mem args (pos + 1) attri).map
        (fun out => Emit.mk (ch ||| attri) attri false :: out)
termination_by structural fuel

/-- The `%`-directive scanner and dispatcher of `vprintfmt` (the `reswitch`
loop).  `dirStart` is the position just after the introducing `%`; `pos`
points at the next character to examine; the remaining parameters are the
directive-local variables `padc`, `width`, `precision`, `lflag`, `altflag`. -/
def scanFmt (fuel : Nat) (mem : Nat → Nat) (args : List Arg) (dirStart pos attri : Nat)
    (padc : Nat) (width precision : Int) (lflag : Nat) (altflag : Bool) :
    Option (List Emit) :=
  match fuel with
  | 0 => none
  | f + 1 =>
    let ch := mem pos
    if ch = 45 then
      scanFmt f mem args dirStart (pos + 1) attri 45 width precision lflag altflag
    else if ch = 48 then
      scanFmt f mem args dirStart (pos + 1) attri 48 width precision lflag altflag
    else if 49 ≤ ch ∧ ch ≤ 57 then
      match digitRun f mem (pos + 1) (ch - 48) with
      | none => none
      | some (n, pos2) =>
        if width < 0 then
          scanFmt f mem args dirStart pos2 attri padc (n : Int) (-1) lflag altflag
        else
          scanFmt f mem args dirStart pos2 attri padc width (n : Int) lflag altflag
    else if ch = 42 then
      let ar := takeArg args
      let n := signedW 32 (argInt ar.1)
      if width < 0 then
        scanFmt f mem ar.2 dirStart (pos + 1) attri padc n (-1) lflag altflag
      else
        scanFmt f mem ar.2 dirStart (pos + 1) attri padc width n lflag altflag
    else if ch = 46 then
      scanFmt f mem args dirStart (pos + 1) attri padc
        (if width < 0 then 0 else width) precision lflag altflag
    else if ch = 35 then
      scanFmt f mem args dirStart (pos + 1) attri padc width precision lflag true
    else if ch = 108 then
      scanFmt f mem args dirStart (pos + 1) attri padc width precision (lflag + 1) altflag
    else if ch = 99 then
      let ar := takeArg args
      (runFmt f mem ar.2 (pos + 1) attri).map
        (fun out =>
          Emit.mk (((argInt ar.1) % ((2 : Int) ^ 32)).toNat ||| attri) attri false :: out)
    else if ch = 101 then
      let ar := takeArg args
      match eConv f (argInt ar.1) with
      | none => none
      | some inner =>
        (runFmt f mem ar.2 (pos + 1) attri).map (fun out => inner ++ out)
    else if ch = 115 then
      let ar := takeArg args
      let p := (argStr ar.1).getD nullB
      (runFmt f mem ar.2 (pos + 1) attri).map
        (fun out => emitS p width precision altflag padc attri ++ out)
    else if ch = 100 then
      let ar := takeArg args
      let num := ((getint lflag ar.1) % ((2 : Int) ^ 64)).toNat
      let sign : List Emit :=
        if 2 ^ 63 ≤ num then [Emit.mk (45 ||| attri) attri false] else []
      let num2 := if 2 ^ 63 ≤ num then 2 ^ 64 - num else num
      (runFmt f mem ar.2 (pos + 1) attri).map
        (fun out =>
          sign ++ (printnum num2 10 width (padc ||| attri)).map
            (fun c => Emit.mk c attri false) ++ out)
    else if ch = 117 then
      let ar := takeArg args
      (runFmt f mem ar.2 (pos + 1) attri).map
        (fun out =>
          (printnum (getuint lflag ar.1) 10 width (padc ||| attri)).map
            (fun c => Emit.mk c attri false) ++ out)
    else if ch = 111 then
      let ar := takeArg args
      (runFmt f mem ar.2 (pos + 1) attri).map
        (fun out =>
          (printnum (getuint lflag ar.1) 8 width (padc ||| attri)).map
            (fun c => Emit.mk c attri false) ++ out)
    else if ch = 112 then
      let ar := takeArg args
      (runFmt f mem ar.2 (pos + 1) attri).map
        (fun out =>
          Emit.mk (48 ||| attri) attri false :: Emit.mk (120 ||| attri) attri false
            :: (printnum (argPtr ar.1 % 2 ^ 32) 16 width (padc ||| attri)).map
                (fun c => Emit.mk c attri false) ++ out)
    else if ch = 120 then
      let ar := takeArg args
      (runFmt f mem ar.2 (pos + 1) attri).map
        (fun out =>
          (printnum (getuint lflag ar.1) 16 width (padc ||| attri)).map
            (fun c => Emit.mk c attri false) ++ out)
    else if ch = 37 then
      (runFmt f mem args (pos + 1) attri).map
        (fun out => Emit.mk (37 ||| attri) attri false :: out)
    else if ch = 66 then
      runFmt f mem args (pos + 2) (applyB attri (mem (pos + 1)))
    else if ch = 70 then
      runFmt f mem args (pos + 2) (applyF attri (mem (pos + 1)))
    else if ch = 67 then
      runFmt f mem args (pos + 1) 0
    else
      match rewindB f mem pos with
      | none => none
      | some pos2 =>
        (runFmt f mem args pos2 attri).map
          (fun out => Emit.mk (37 ||| attri) attri false :: out)
termination_by structural fuel

/-- The `%e` conversion body: sign-normalise the int error code, then
recursively `printfmt` either `"%s"` with the table entry or `"error %d"`
with the code.  The recursive call is a fresh `vprintfmt` activation whose
local `attri` starts at 0; its emissions are tagged `viaE`. -/
def eConv (fuel : Nat) (e : Int) : Option (List Emit) :=
  match fuel with
  | 0 => none
  | f + 1 =>
    let err := absErr32 e
    if MAXERROR ≤ err ∨ errorString err = none then
      (runFmt f (cstr errFmtB) [Arg.int err] 0 0).map (fun out => out.map tagE)
    else
      (runFmt f (cstr pctSB) [Arg.str (errorString err)] 0 0).map (fun out => out.map tagE)
termination_by structural fuel

end

/-- The rendered output: the integers handed to `putch`, in order. -/
def outBytes (l : List Emit) : List Nat := l.map Emit.chr

/-- The `sprintbuf` sink state: the bytes stored so far, the store limit
(capacity − 1, reserving the terminator slot), and the attempted-character
count. -/
structure SBuf where
  stored : List Nat
  limit : Nat
  cnt : Nat
  deriving DecidableEq, Repr

/-- `sprintputch`: count every character unconditionally; store its low
byte and advance the cursor only while the cursor is before the limit. -/
def sprintputch (b : SBuf) (ch : Nat) : SBuf :=
  SBuf.mk (if b.stored.length < b.limit then b.stored ++ [ch % 256] else b.stored)
    b.limit (b.cnt + 1)

/-- `vsnprintf`: format into a bounded buffer.  `bufValid` models
`buf != NULL`; on success the result is the sequence of bytes written
(the stored prefix followed by the terminating 0) and the returned count;
a NULL buffer or a capacity below 1 returns `-E_INVAL` before anything is
written (E_INVAL = 3, modelled from the spec's description of
`inc/error.h`).  `none` means the formatting fuel ran out. -/
def vsnprintf (bufValid : Bool) (n : Int) (mem : Nat → Nat) (args : List Arg) (fuel : Nat) :
    Option (Except Int (List Nat × Nat)) :=
  if bufValid = false ∨ n < 1 then some (Except.error (-3))
  else
    match runFmt fuel mem args 0 0 with
    | none => none
    | some out =>
      let b := (outBytes out).foldl sprintputch (SBuf.mk [] (n - 1).toNat 0)
      some (Except.ok (b.stored ++ [0], b.cnt))


/-- Emissions of a top-level activation with attribute mask 0. -/
def plainE (l : List Nat) : List Emit := l.map (fun c => Emit.mk c 0 false)

/-- Emissions produced inside the `%e` recursion (mask 0, tagged). -/
def eTagged (l : List Nat) : List Emit := l.map (fun c => Emit.mk c 0 true)

theorem or_absorb (a b : Nat) : (a ||| b) ||| b = a ||| b := by
  rw [Nat.or_assoc, Nat.or_self]

theorem or_mask (a b m : Nat) (ha : a &&& m = a) (hb : b &&& m = b) :
    (a ||| b) &&& m = a ||| b := by
  apply Nat.eq_of_testBit_eq
  intro i
  have ha' := congrArg (fun x => x.testBit i) ha
  have hb' := congrArg (fun x => x.testBit i) hb
  simp only [Nat.testBit_and, Nat.testBit_or] at ha' hb' ⊢
  cases h1 : a.testBit i <;> cases h2 : b.testBit i <;> cases h3 : m.testBit i <;>
    simp_all

theorem and_mask (a k m : Nat) (ha : a &&& m = a) : (a &&& k) &&& m = a &&& k := by
  apply Nat.eq_of_testBit_eq
  intro i
  have ha' := congrArg (fun x => x.testBit i) ha
  simp only [Nat.testBit_and] at ha' ⊢
  cases h1 : a.testBit i <;> cases h2 : k.testBit i <;> cases h3 : m.testBit i <;>
    simp_all

theorem or_mask_digit (h p a m : Nat) (ha : a &&& m = a) :
    (h ||| ((p ||| a) &&& m)) ||| a = h ||| ((p ||| a) &&& m) := by
  apply Nat.eq_of_testBit_eq
  intro i
  have ha' := congrArg (fun x => x.testBit i) ha
  simp only [Nat.testBit_and, Nat.testBit_or] at ha' ⊢
  cases h1 : a.testBit i <;> cases h2 : p.testBit i <;> cases h3 : m.testBit i <;>
    cases h4 : h.testBit i <;> simp_all

/-- C10: `%d` with length-modifier count 2 (`%lld`) and the most negative
64-bit argument −2^63: the sign test sees a negative value, a `-` is
emitted, and the negation `num = -(long long) num` wraps modulo 2^64 back
to 2^63, so the digits printed are those of the correct magnitude 2^63 and
the full rendering is `-9223372036854775808`. -/
theorem C10_lld_most_negative :
    runFmt 80 (cstr (strBytes "%lld")) [Arg.int (-(2 ^ 63))] 0 0 =
        some (plainE (strBytes "-9223372036854775808"))
      ∧ outBytes (plainE (strBytes "-9223372036854775808"))
          = 45 :: printnum (2 ^ 63) 10 (-1) 32
      ∧ printnum (2 ^ 63) 10 (-1) 32 = strBytes "9223372036854775808" := by
  refine ⟨by decide, by decide, by decide⟩

/-- C2 (evidence of the defect): with the format string consisting of the
bytes `%`, `B` and the terminating 0 at positions 0, 1, 2, the formatting
call does not read only bytes at or before the null: two memories that
agree on every byte up to and including the terminator (the second one has
an `X` at position 3, past the null) produce different outputs, because
the `%B` handler consumes the null as its selector character, advances the
cursor past it, and scanning resumes from position 3. -/
theorem C2_reads_past_terminator :
    cstr [37, 66] 0 = 37 ∧ cstr [37, 66] 1 = 66 ∧ cstr [37, 66] 2 = 0
      ∧ (fun i => if i = 3 then 88 else cstr [37, 66] i) 0 = 37
      ∧ (fun i => if i = 3 then 88 else cstr [37, 66] i) 1 = 66
      ∧ (fun i => if i = 3 then 88 else cstr [37, 66] i) 2 = 0
      ∧ runFmt 20 (cstr [37, 66]) [] 0 0 = some []
      ∧ runFmt 20 (fun i => if i = 3 then 88 else cstr [37, 66] i) [] 0 0
          = some [Emit.mk 88 0 false] := by
  refine ⟨rfl, rfl, rfl, rfl, rfl, rfl, by decide, by decide⟩

/-- Folding `sprintputch` over a character sequence: every character is
counted, and characters are stored (low byte only) until the limit is
reached. -/
theorem sprintputch_foldl (out : List Nat) :
    ∀ (s : List Nat) (L c : Nat),
      out.foldl sprintputch (SBuf.mk s L c) =
        SBuf.mk (s ++ (out.map (fun x => x % 256)).take (L - s.length)) L (c + out.length) := by
  induction out with
  | nil => intro s L c; simp
  | cons x xs ih =>
    intro s L c
    by_cases hlt : s.length < L
    · have h1 : sprintputch (SBuf.mk s L c) x = SBuf.mk (s ++ [x % 256]) L (c + 1) := by
        simp [sprintputch, hlt]
      rw [List.foldl_cons, h1, ih (s ++ [x % 256]) L (c + 1)]
      have h2 : L - s.length = (L - (s ++ [x % 256]).length) + 1 := by
        simp only [List.length_append, List.length_cons, List.length_nil]
        omega
      simp only [List.map_cons, h2, List.take_succ_cons, List.length_cons]
      simp [List.append_assoc]
      omega
    · have h1 : sprintputch (SBuf.mk s L c) x = SBuf.mk s L (c + 1) := by
        simp [sprintputch, hlt]
      rw [List.foldl_cons, h1, ih s L (c + 1)]
      have h2 : L - s.length = 0 := by omega
      simp [h2]
      omega

/-- C5: for the bounded-buffer formatter with a present buffer and capacity
`n ≥ 1`, whenever the engine's run produces the character sequence `out`,
the attempted-count grows by one per character unconditionally (the
returned count is `out.length`, the length the unbounded format would
produce), bytes are stored only while the cursor is before
`buffer + n - 1` (the stored bytes are the first `n - 1` characters, low
byte each), and exactly one terminating zero byte is written at the final
cursor position; concretely, formatting `"%d"` with 12345 into a
capacity-3 buffer returns 5 and writes bytes `'1'`, `'2'`, 0 at indices
0, 1, 2. -/
theorem C5_vsnprintf_truncation (n : Int) (mem : Nat → Nat) (args : List Arg)
    (fuel : Nat) (out : List Emit) (hn : 1 ≤ n)
    (hrun : runFmt fuel mem args 0 0 = some out) :
    vsnprintf true n mem args fuel =
        some (Except.ok
          (((outBytes out).map (fun x => x % 256)).take (n - 1).toNat ++ [0], out.length))
      ∧ vsnprintf true 3 (cstr (strBytes "%d")) [Arg.int 12345] 40
          = some (Except.ok ([49, 50, 0], 5)) := by
  constructor
  · rw [vsnprintf, if_neg (by simp; omega)]
    simp only [hrun]
    rw [sprintputch_foldl (outBytes out) [] (n - 1).toNat 0]
    simp [outBytes]
  · rfl

/-- Witness for C5 at the concrete input `"%d"`, 12345, capacity 3. -/
theorem C5_vsnprintf_truncation_witness :
    vsnprintf true 3 (cstr (strBytes "%d")) [Arg.int 12345] 40 =
        some (Except.ok
          (((outBytes (plainE [49, 50, 51, 52, 53])).map (fun x => x % 256)).take
              ((3 : Int) - 1).toNat ++ [0],
            (plainE [49, 50, 51, 52, 53]).length))
      ∧ vsnprintf true 3 (cstr (strBytes "%d")) [Arg.int 12345] 40
          = some (Except.ok ([49, 50, 0], 5)) :=
  C5_vsnprintf_truncation 3 (cstr (strBytes "%d")) [Arg.int 12345] 40
    (plainE [49, 50, 51, 52, 53]) (by decide) (by decide)

/-- C8: the bounded-buffer formatter returns the negative code `-E_INVAL`
exactly when the buffer is absent or the capacity is below 1 (the check
precedes all writes, so nothing is stored in that case: the error branch
produces no bytes); on every other input it does not fail — whenever the
run completes, the result is a success value. -/
theorem C8_vsnprintf_invalid (bufValid : Bool) (n : Int) (mem : Nat → Nat)
    (args : List Arg) (fuel : Nat) :
    ((bufValid = false ∨ n < 1) →
        vsnprintf bufValid n mem args fuel = some (Except.error (-3)) ∧ (-3 : Int) < 0)
      ∧ (bufValid = true → 1 ≤ n → ∀ r, vsnprintf bufValid n mem args fuel = some r →
          ∃ bytes cnt, r = Except.ok (bytes, cnt)) := by
  constructor
  · intro h
    rw [vsnprintf, if_pos h]
    exact ⟨rfl, by norm_num⟩
  · intro hb hn r hr
    rw [vsnprintf, if_neg (by simp [hb]; omega)] at hr
    cases hout : runFmt fuel mem args 0 0 with
    | none => rw [hout] at hr; exact absurd hr (by simp)
    | some out =>
      rw [hout] at hr
      simp only [Option.some_inj] at hr
      exact ⟨_, _, hr.symm⟩

/-- Witness for C8 at concrete inputs: capacity 0 fails with `-E_INVAL`;
a valid call succeeds. -/
theorem C8_vsnprintf_invalid_witness :
    ((false = false ∨ (0 : Int) < 1) →
        vsnprintf false 0 (cstr (strBytes "a")) [] 20 = some (Except.error (-3))
          ∧ (-3 : Int) < 0)
      ∧ (false = true → 1 ≤ (0 : Int) →
          ∀ r, vsnprintf false 0 (cstr (strBytes "a")) [] 20 = some r →
            ∃ bytes cnt, r = Except.ok (bytes, cnt)) :=
  C8_vsnprintf_invalid false 0 (cstr (strBytes "a")) [] 20

theorem strnlenM_le (p : List Nat) (precision : Int) : strnlenM p precision ≤ p.length := by
  rw [strnlenM]
  split
  · exact le_rfl
  · exact Nat.min_le_left _ _

/-- The `%s` content loop emits exactly the first `strnlen(p, precision)`
characters, with the `?` substitution applied. -/
theorem sContent_eq (p : List Nat) :
    ∀ (precision : Int) (altflag : Bool) (attri : Nat),
      sContent p precision altflag attri =
        (p.take (strnlenM p precision)).map
          (fun c =>
            Emit.mk ((if altflag ∧ (c < 32 ∨ 126 < c) then 63 else c) ||| attri) attri false) := by
  induction p with
  | nil =>
    intro precision altflag attri
    simp [sContent, strnlenM]
  | cons c rest ih =>
    intro precision altflag attri
    by_cases h0 : precision = 0
    · subst h0
      have hlen : strnlenM (c :: rest) 0 = 0 := by simp [strnlenM]
      rw [hlen]
      simp [sContent]
    · rw [sContent, if_neg h0]
      by_cases hneg : precision < 0
      · have hlen : strnlenM (c :: rest) precision = rest.length + 1 := by
          simp [strnlenM, hneg]
        have hlen' : strnlenM rest precision = rest.length := by
          simp [strnlenM, hneg]
        rw [if_pos hneg, hlen, ih precision altflag attri, hlen']
        simp
      · have hlen : strnlenM (c :: rest) precision
            = min rest.length (precision - 1).toNat + 1 := by
          rw [strnlenM, if_neg hneg]
          simp only [List.length_cons]
          omega
        have hlen' : strnlenM rest (precision - 1) = min rest.length (precision - 1).toNat := by
          rw [strnlenM, if_neg (by omega : ¬ precision - 1 < 0)]
        rw [if_neg hneg, hlen, ih (precision - 1) altflag attri, hlen']
        simp

theorem sContent_length (p : List Nat) (precision : Int) (altflag : Bool) (attri : Nat) :
    (sContent p precision altflag attri).length = strnlenM p precision := by
  rw [sContent_eq p precision altflag attri]
  simp only [List.length_map, List.length_take]
  exact Nat.min_eq_left (strnlenM_le p precision)

/-- C6: the `%s` conversion — a NULL pointer is replaced by `"(null)"`
(closed conjunct); when width is positive and the pad character is not
`-`, the output is left-padded with the pad character for
`width − min(stringLength, precision)` characters (negative precision
meaning unlimited, via `strnlenM`); at most `precision` characters of the
string are emitted, each byte outside 0x20..0x7E replaced by `?` when the
alternate flag is set; any width remaining after the content is filled
with plain spaces (byte 32), never the pad character — and right-padding
happens only when left-padding did not. -/
theorem C6_s_conversion (p : List Nat) (width precision : Int) (altflag : Bool)
    (padc attri : Nat) :
    emitS p width precision altflag padc attri =
        (if 0 < width ∧ ¬ padc = 45 then
          List.replicate (width - (strnlenM p precision : Int)).toNat
            (Emit.mk (padc ||| attri) attri false)
        else [])
        ++ (p.take (strnlenM p precision)).map
            (fun c =>
              Emit.mk ((if altflag ∧ (c < 32 ∨ 126 < c) then 63 else c) ||| attri) attri false)
        ++ (if 0 < width ∧ ¬ padc = 45 then []
            else List.replicate (width - (strnlenM p precision : Int)).toNat
              (Emit.mk (32 ||| attri) attri false))
      ∧ runFmt 40 (cstr (strBytes "%s")) [Arg.str none] 0 0
          = some (plainE (strBytes "(null)")) := by
  constructor
  · simp only [emitS]
    by_cases hc : 0 < width ∧ ¬ padc = 45
    · rw [if_pos hc, if_pos hc, if_pos hc]
      have hz : (min (width - (strnlenM p precision : Int)) 0
          - ((sContent p precision altflag attri).length : Int)).toNat = 0 := by
        omega
      rw [hz, sContent_eq p precision altflag attri]
      simp
    · rw [if_neg hc, if_neg hc, if_neg hc]
      rw [sContent_length p precision altflag attri, sContent_eq p precision altflag attri]
      simp
  · decide

/-- The rewind loop lands on the position right after the nearest `%`
before the cursor: with `%` at `start - 1` and no `%` in `[start, cur)`,
it stops exactly at `start`. -/
theorem rewindB_finds (mem : Nat → Nat) (start : Nat) (hstart : mem (start - 1) = 37) :
    ∀ (k cur f : Nat), cur = start + k → k < f →
      (∀ i, start ≤ i → i < cur → ¬ mem i = 37) →
      rewindB f mem cur = some start := by
  intro k
  induction k with
  | zero =>
    intro cur f hcur hf hno
    obtain ⟨g, rfl⟩ : ∃ g, f = g + 1 := ⟨f - 1, by omega⟩
    subst hcur
    rw [rewindB]
    simp [hstart]
  | succ k ih =>
    intro cur f hcur hf hno
    obtain ⟨g, rfl⟩ : ∃ g, f = g + 1 := ⟨f - 1, by omega⟩
    have hne : ¬ mem (cur - 1) = 37 := hno (cur - 1) (by omega) (by omega)
    rw [rewindB, if_neg hne]
    exact ih (cur - 1) g (by omega) (by omega) (fun i h1 h2 => hno i h1 (by omega))

/-- C9: a directive whose conversion character is not one of the
recognised specifiers (and not a modifier) makes the engine emit `%` and
rewind the scan position to the character immediately after the original
`%` (`dirStart`), from where the already-consumed characters are re-read
by the literal loop; the consumed modifier characters contain no `%`, so
the rewind always lands on `dirStart`.  Concretely, `"%z"` renders the two
bytes `%` `z`, and `"%5z"` renders `%` `5` `z`. -/
theorem C9_unrecognised_directive (f : Nat) (mem : Nat → Nat) (args : List Arg)
    (dirStart pos attri padc : Nat) (width precision : Int) (lflag : Nat) (altflag : Bool)
    (hch : ¬ mem pos ∈
      [45, 48, 42, 46, 35, 108, 99, 101, 115, 100, 117, 111, 112, 120, 37, 66, 70, 67])
    (hdig : ¬ (49 ≤ mem pos ∧ mem pos ≤ 57))
    (hstart : mem (dirStart - 1) = 37)
    (hno : ∀ i, dirStart ≤ i → i < pos → ¬ mem i = 37)
    (hds : dirStart ≤ pos) (hfuel : pos - dirStart < f) :
    scanFmt (f + 1) mem args dirStart pos attri padc width precision lflag altflag
        = (runFmt f mem args dirStart attri).map
            (fun out => Emit.mk (37 ||| attri) attri false :: out)
      ∧ runFmt 20 (cstr (strBytes "%z")) [] 0 0 = some (plainE [37, 122])
      ∧ runFmt 20 (cstr (strBytes "%5z")) [] 0 0 = some (plainE [37, 53, 122]) := by
  refine ⟨?_, by decide, by decide⟩
  simp only [List.mem_cons, List.mem_singleton, not_or] at hch
  obtain ⟨h45, h48, h42, h46, h35, h108, h99, h101, h115, h100, h117, h111, h112, h120,
    h37, h66, h70, h67, -⟩ := hch
  rw [scanFmt]
  simp only [if_neg h45, if_neg h48, if_neg hdig, if_neg h42, if_neg h46, if_neg h35,
    if_neg h108, if_neg h99, if_neg h101, if_neg h115, if_neg h100, if_neg h117,
    if_neg h111, if_neg h112, if_neg h120, if_neg h37, if_neg h66, if_neg h70, if_neg h67]
  rw [rewindB_finds mem dirStart hstart (pos - dirStart) pos f (by omega) (by omega) hno]

/-- Witness for C9 at the concrete directive `"%z"` (cursor at the `z`). -/
theorem C9_unrecognised_directive_witness :
    scanFmt 6 (cstr (strBytes "%z")) [] 1 1 0 32 (-1) (-1) 0 false
        = (runFmt 5 (cstr (strBytes "%z")) [] 1 0).map
            (fun out => Emit.mk (37 ||| 0) 0 false :: out)
      ∧ runFmt 20 (cstr (strBytes "%z")) [] 0 0 = some (plainE [37, 122])
      ∧ runFmt 20 (cstr (strBytes "%5z")) [] 0 0 = some (plainE [37, 53, 122]) :=
  C9_unrecognised_directive 5 (cstr (strBytes "%z")) [] 1 1 0 32 (-1) (-1) 0 false
    (by decide) (by decide) (by decide)
    (fun i h1 h2 => absurd (Nat.lt_of_le_of_lt h1 h2) (Nat.lt_irrefl 1))
    (Nat.le_refl 1) (by decide)

/-- C4: the width/precision reclassification of the directive scanner.  A
decimal digit run (first conjunct) and a `*`-supplied integer argument
(second conjunct) are assigned to width when width is still unset (-1),
resetting precision to -1, and otherwise to precision; `.` (third
conjunct) sets width to 0 only when width is still unset and otherwise
changes nothing; consequently `"%5.2s"` reaches its conversion with width
5 and precision 2, and `"%.5d"` reaches its conversion with width 0 and
precision 5 (closed conjuncts, stated as equivalence with the scanner
restarted at the conversion character in that state, together with the
resulting renderings). -/
theorem C4_width_precision_reclassification (f : Nat) (mem : Nat → Nat) (args : List Arg)
    (dirStart pos attri padc : Nat) (width precision : Int) (lflag : Nat) (altflag : Bool)
    (n pos2 : Nat) :
    ((49 ≤ mem pos ∧ mem pos ≤ 57) →
        digitRun f mem (pos + 1) (mem pos - 48) = some (n, pos2) →
        scanFmt (f + 1) mem args dirStart pos attri padc width precision lflag altflag
          = scanFmt f mem args dirStart pos2 attri padc
              (if width < 0 then (n : Int) else width)
              (if width < 0 then -1 else (n : Int)) lflag altflag)
      ∧ (mem pos = 42 →
          scanFmt (f + 1) mem args dirStart pos attri padc width precision lflag altflag
            = scanFmt f mem (takeArg args).2 dirStart (pos + 1) attri padc
                (if width < 0 then signedW 32 (argInt (takeArg args).1) else width)
                (if width < 0 then -1 else signedW 32 (argInt (takeArg args).1))
                lflag altflag)
      ∧ (mem pos = 46 →
          scanFmt (f + 1) mem args dirStart pos attri padc width precision lflag altflag
            = scanFmt f mem args dirStart (pos + 1) attri padc
                (if width < 0 then 0 else width) precision lflag altflag)
      ∧ scanFmt 50 (cstr (strBytes "%5.2s")) [Arg.str (some (strBytes "abcdef"))] 1 1 0 32
            (-1) (-1) 0 false
          = scanFmt 50 (cstr (strBytes "%5.2s")) [Arg.str (some (strBytes "abcdef"))] 1 4 0 32
              5 2 0 false
      ∧ scanFmt 50 (cstr (strBytes "%5.2s")) [Arg.str (some (strBytes "abcdef"))] 1 1 0 32
            (-1) (-1) 0 false
          = some (plainE [32, 32, 32, 97, 98])
      ∧ scanFmt 50 (cstr (strBytes "%.5d")) [Arg.int 7] 1 1 0 32 (-1) (-1) 0 false
          = scanFmt 50 (cstr (strBytes "%.5d")) [Arg.int 7] 1 3 0 32 0 5 0 false
      ∧ scanFmt 50 (cstr (strBytes "%.5d")) [Arg.int 7] 1 1 0 32 (-1) (-1) 0 false
          = some (plainE [55]) := by
  refine ⟨?_, ?_, ?_, by decide, by decide, by decide, by decide⟩
  · intro hdig hdr
    rw [scanFmt]
    rw [if_neg (by omega), if_neg (by omega), if_pos hdig, hdr]
    by_cases hw : width < 0
    · simp [hw]
    · simp [hw]
  · intro h
    rw [scanFmt, h]
    norm_num
    by_cases hw : width < 0
    · simp [hw]
    · simp [hw]
  · intro h
    rw [scanFmt, h]
    norm_num

/-- Witness for C4 at the concrete digit run `"5"` of `"%5.2s"` (cursor at
the `5`, width still unset). -/
theorem C4_width_precision_reclassification_witness :
    scanFmt 49 (cstr (strBytes "%5.2s")) [Arg.str (some (strBytes "abcdef"))] 1 1 0 32
        (-1) (-1) 0 false
      = scanFmt 48 (cstr (strBytes "%5.2s")) [Arg.str (some (strBytes "abcdef"))] 1 2 0 32
          (if (-1 : Int) < 0 then ((5 : Nat) : Int) else -1)
          (if (-1 : Int) < 0 then -1 else ((5 : Nat) : Int)) 0 false :=
  (C4_width_precision_reclassification 48 (cstr (strBytes "%5.2s"))
      [Arg.str (some (strBytes "abcdef"))] 1 1 0 32 (-1) (-1) 0 false 5 2).1
    (by decide) (by decide)

theorem runFmt_nul (f : Nat) (mem : Nat → Nat) (args : List Arg) (pos attri : Nat)
    (h : mem pos = 0) : runFmt (f + 1) mem args pos attri = some [] := by
  rw [runFmt, h]
  norm_num

theorem runFmt_lit (f : Nat) (mem : Nat → Nat) (args : List Arg) (pos attri : Nat)
    (h0 : ¬ mem pos = 0) (h37 : ¬ mem pos = 37) :
    runFmt (f + 1) mem args pos attri =
      (runFmt f mem args (pos + 1) attri).map
        (fun out => Emit.mk (mem pos ||| attri) attri false :: out) := by
  rw [runFmt]
  simp only [if_neg h0, if_neg h37]

theorem runFmt_dir (f : Nat) (mem : Nat → Nat) (args : List Arg) (pos attri : Nat)
    (h : mem pos = 37) :
    runFmt (f + 1) mem args pos attri =
      scanFmt f mem args (pos + 1) (pos + 1) attri 32 (-1) (-1) 0 false := by
  rw [runFmt, h]
  norm_num

theorem scanFmt_d (f : Nat) (mem : Nat → Nat) (args : List Arg)
    (dirStart pos attri padc : Nat) (width precision : Int) (lflag : Nat) (altflag : Bool)
    (h : mem pos = 100) :
    scanFmt (f + 1) mem args dirStart pos attri padc width precision lflag altflag =
      (runFmt f mem (takeArg args).2 (pos + 1) attri).map
        (fun out =>
          (if 2 ^ 63 ≤ ((getint lflag (takeArg args).1) % ((2 : Int) ^ 64)).toNat
            then [Emit.mk (45 ||| attri) attri false] else [])
          ++ (printnum
                (if 2 ^ 63 ≤ ((getint lflag (takeArg args).1) % ((2 : Int) ^ 64)).toNat
                  then 2 ^ 64 - ((getint lflag (takeArg args).1) % ((2 : Int) ^ 64)).toNat
                  else ((getint lflag (takeArg args).1) % ((2 : Int) ^ 64)).toNat)
                10 width (padc ||| attri)).map (fun c => Emit.mk c attri false)
          ++ out) := by
  rw [scanFmt, h]
  norm_num

theorem signedW32_eq_self (e : Int) (h1 : -(2 ^ 31) ≤ e) (h2 : e < 2 ^ 31) :
    signedW 32 e = e := by
  simp only [signedW]
  norm_num
  omega

/-- For int values other than the most negative one, the `%e` sign
normalisation computes the absolute value. -/
theorem absErr32_eq_abs (e : Int) (h1 : -(2 ^ 31) < e) (h2 : e < 2 ^ 31) :
    absErr32 e = |e| := by
  simp only [absErr32]
  rw [signedW32_eq_self e (by omega) h2]
  by_cases he : e < 0
  · rw [if_pos he, signedW32_eq_self (-e) (by omega) (by omega), abs_of_neg he]
  · rw [if_neg he, abs_of_nonneg (by omega)]

/-- The `%e` body depends on its argument only through the normalised
code. -/
theorem eConv_congr (f : Nat) (e e' : Int) (h : absErr32 e = absErr32 e') :
    eConv f e = eConv f e' := by
  cases f with
  | zero => rfl
  | succ g => rw [eConv, eConv, h]

/-- The recursive `printfmt(putch, putdat, "error %d", err)` call of `%e`:
its rendering for a non-negative 32-bit code. -/
theorem errFmtRun (f : Nat) (err : Int) (h1 : 0 ≤ err) (h2 : err < 2 ^ 31) :
    runFmt (f + 9) (cstr errFmtB) [Arg.int err] 0 0 =
      some (plainE (strBytes "error ")
        ++ (printnum err.toNat 10 (-1) 32).map (fun c => Emit.mk c 0 false)) := by
  have e1 : f + 9 = (f + 8) + 1 := rfl
  rw [e1, runFmt_lit (f + 8) _ _ 0 0 (by decide) (by decide)]
  have e2 : f + 8 = (f + 7) + 1 := rfl
  rw [e2, runFmt_lit (f + 7) _ _ 1 0 (by decide) (by decide)]
  have e3 : f + 7 = (f + 6) + 1 := rfl
  rw [e3, runFmt_lit (f + 6) _ _ 2 0 (by decide) (by decide)]
  have e4 : f + 6 = (f + 5) + 1 := rfl
  rw [e4, runFmt_lit (f + 5) _ _ 3 0 (by decide) (by decide)]
  have e5 : f + 5 = (f + 4) + 1 := rfl
  rw [e5, runFmt_lit (f + 4) _ _ 4 0 (by decide) (by decide)]
  have e6 : f + 4 = (f + 3) + 1 := rfl
  rw [e6, runFmt_lit (f + 3) _ _ 5 0 (by decide) (by decide)]
  have e7 : f + 3 = (f + 2) + 1 := rfl
  rw [e7, runFmt_dir (f + 2) _ _ 6 0 (by decide)]
  have e8 : f + 2 = (f + 1) + 1 := rfl
  rw [e8, scanFmt_d (f + 1) _ _ 7 7 0 32 (-1) (-1) 0 false (by decide)]
  rw [runFmt_nul f _ _ 8 0 (by decide)]
  have hg : getint 0 (takeArg [Arg.int err]).1 = err := by
    simp [takeArg, getint, signedW32_eq_self err (by omega) h2, argInt]
  rw [hg]
  have hm : (err % ((2 : Int) ^ 64)).toNat = err.toNat := by
    omega
  rw [hm]
  have hs : ¬ (2 ^ 63 ≤ err.toNat) := by omega
  rw [if_neg hs, if_neg hs]
  simp [plainE, strBytes]
  decide

/-- C7: the `%e` conversion first normalises the int code by absolute
value, so for every code in int range other than the most negative int,
codes `e` and `-e` render identically (first conjunct, any fuel); when the
normalised code is within table bounds and the entry is present, the entry
string is rendered (second conjunct); otherwise the text `error N` with
`N` the normalised code is rendered (third conjunct); concretely, codes 3
and −3 both render the table entry `"invalid parameter"` and code 999
renders `"error 999"`. -/
theorem C7_e_conversion (e : Int) (s : List Nat) (fuel : Nat)
    (h1 : -(2 ^ 31) < e) (h2 : e < 2 ^ 31) :
    eConv fuel e = eConv fuel (-e)
      ∧ (errorString (absErr32 e) = some s →
          eConv 40 e = some (s.map (fun c => Emit.mk c 0 true)))
      ∧ ((MAXERROR ≤ absErr32 e ∨ errorString (absErr32 e) = none) →
          eConv 40 e = some (eTagged (strBytes "error ")
            ++ (printnum (absErr32 e).toNat 10 (-1) 32).map (fun c => Emit.mk c 0 true)))
      ∧ runFmt 60 (cstr (strBytes "%e")) [Arg.int 3] 0 0
          = some (eTagged (strBytes "invalid parameter"))
      ∧ runFmt 60 (cstr (strBytes "%e")) [Arg.int (-3)] 0 0
          = some (eTagged (strBytes "invalid parameter"))
      ∧ runFmt 60 (cstr (strBytes "%e")) [Arg.int 999] 0 0
          = some (eTagged (strBytes "error 999")) := by
  have habs : absErr32 e = |e| := absErr32_eq_abs e h1 h2
  refine ⟨?_, ?_, ?_, by decide, by decide, by decide⟩
  · refine eConv_congr fuel e (-e) ?_
    rw [habs, absErr32_eq_abs (-e) (by omega) (by omega), abs_neg]
  · intro hs
    have her : absErr32 e = 1 ∨ absErr32 e = 2 ∨ absErr32 e = 3 ∨ absErr32 e = 4
        ∨ absErr32 e = 5 ∨ absErr32 e = 6 := by
      by_contra hc
      push_neg at hc
      rw [errorString, if_neg hc.1, if_neg hc.2.1, if_neg hc.2.2.1, if_neg hc.2.2.2.1,
        if_neg hc.2.2.2.2.1, if_neg hc.2.2.2.2.2] at hs
      exact absurd hs (by simp)
    rcases her with h | h | h | h | h | h
    · rw [h, errorString] at hs
      norm_num at hs
      rw [eConv_congr 40 e 1 (by rw [h]; decide), ← hs]
      decide
    · rw [h, errorString] at hs
      norm_num at hs
      rw [eConv_congr 40 e 2 (by rw [h]; decide), ← hs]
      decide
    · rw [h, errorString] at hs
      norm_num at hs
      rw [eConv_congr 40 e 3 (by rw [h]; decide), ← hs]
      decide
    · rw [h, errorString] at hs
      norm_num at hs
      rw [eConv_congr 40 e 4 (by rw [h]; decide), ← hs]
      decide
    · rw [h, errorString] at hs
      norm_num at hs
      rw [eConv_congr 40 e 5 (by rw [h]; decide), ← hs]
      decide
    · rw [h, errorString] at hs
      norm_num at hs
      rw [eConv_congr 40 e 6 (by rw [h]; decide), ← hs]
      decide
  · intro hfall
    have hb0 : 0 ≤ absErr32 e := by rw [habs]; exact abs_nonneg e
    have hb31 : absErr32 e < 2 ^ 31 := by rw [habs]; rw [abs_lt]; omega
    have e0 : (40 : Nat) = 39 + 1 := rfl
    rw [e0, eConv, if_pos hfall]
    rw [show (39 : Nat) = 30 + 9 from rfl, errFmtRun 30 (absErr32 e) hb0 hb31]
    simp [eTagged, plainE, tagE, List.map_append, List.map_map]
    rfl

/-- Witness for C7 at the concrete code 3 (present table entry). -/
theorem C7_e_conversion_witness :
    eConv 40 3 = some ((strBytes "invalid parameter").map (fun c => Emit.mk c 0 true)) :=
  (C7_e_conversion 3 (strBytes "invalid parameter") 40 (by decide) (by decide)).2.1
    (by decide)

theorem scanFmt_minus (f : Nat) (mem : Nat → Nat) (args : List Arg)
    (dirStart pos attri padc : Nat) (width precision : Int) (lflag : Nat) (altflag : Bool)
    (h : mem pos = 45) :
    scanFmt (f + 1) mem args dirStart pos attri padc width precision lflag altflag =
      scanFmt f mem args dirStart (pos + 1) attri 45 width precision lflag altflag := by
  rw [scanFmt, h]
  norm_num

theorem scanFmt_zero (f : Nat) (mem : Nat → Nat) (args : List Arg)
    (dirStart pos attri padc : Nat) (width precision : Int) (lflag : Nat) (altflag : Bool)
    (h : mem pos = 48) :
    scanFmt (f + 1) mem args dirStart pos attri padc width precision lflag altflag =
      scanFmt f mem args dirStart (pos + 1) attri 48 width precision lflag altflag := by
  rw [scanFmt, h]
  norm_num

theorem scanFmt_digit (f : Nat) (mem : Nat → Nat) (args : List Arg)
    (dirStart pos attri padc : Nat) (width precision : Int) (lflag : Nat) (altflag : Bool)
    (h : 49 ≤ mem pos ∧ mem pos ≤ 57) :
    scanFmt (f + 1) mem args dirStart pos attri padc width precision lflag altflag =
      match digitRun f mem (pos + 1) (mem pos - 48) with
      | none => none
      | some (n, pos2) =>
        if width < 0 then
          scanFmt f mem args dirStart pos2 attri padc (n : Int) (-1) lflag altflag
        else
          scanFmt f mem args dirStart pos2 attri padc width (n : Int) lflag altflag := by
  rw [scanFmt]
  rw [if_neg (by omega), if_neg (by omega), if_pos h]

theorem scanFmt_star (f : Nat) (mem : Nat → Nat) (args : List Arg)
    (dirStart pos attri padc : Nat) (width precision : Int) (lflag : Nat) (altflag : Bool)
    (h : mem pos = 42) :
    scanFmt (f + 1) mem args dirStart pos attri padc width precision lflag altflag =
      if width < 0 then
        scanFmt f mem (takeArg args).2 dirStart (pos + 1) attri padc
          (signedW 32 (argInt (takeArg args).1)) (-1) lflag altflag
      else
        scanFmt f mem (takeArg args).2 dirStart (pos + 1) attri padc width
          (signedW 32 (argInt (takeArg args).1)) lflag altflag := by
  rw [scanFmt, h]
  norm_num

theorem scanFmt_dot (f : Nat) (mem : Nat → Nat) (args : List Arg)
    (dirStart pos attri padc : Nat) (width precision : Int) (lflag : Nat) (altflag : Bool)
    (h : mem pos = 46) :
    scanFmt (f + 1) mem args dirStart pos attri padc width precision lflag altflag =
      scanFmt f mem args dirStart (pos + 1) attri padc
        (if width < 0 then 0 else width) precision lflag altflag := by
  rw [scanFmt, h]
  norm_num

theorem scanFmt_hash (f : Nat) (mem : Nat → Nat) (args : List Arg)
    (dirStart pos attri padc : Nat) (width precision : Int) (lflag : Nat) (altflag : Bool)
    (h : mem pos = 35) :
    scanFmt (f + 1) mem args dirStart pos attri padc width precision lflag altflag =
      scanFmt f mem args dirStart (pos + 1) attri padc width precision lflag true := by
  rw [scanFmt, h]
  norm_num

theorem scanFmt_l (f : Nat) (mem : Nat → Nat) (args : List Arg)
    (dirStart pos attri padc : Nat) (width precision : Int) (lflag : Nat) (altflag : Bool)
    (h : mem pos = 108) :
    scanFmt (f + 1) mem args dirStart pos attri padc width precision lflag altflag =
      scanFmt f mem args dirStart (pos + 1) attri padc width precision (lflag + 1)
        altflag := by
  rw [scanFmt, h]
  norm_num

theorem scanFmt_c (f : Nat) (mem : Nat → Nat) (args : List Arg)
    (dirStart pos attri padc : Nat) (width precision : Int) (lflag : Nat) (altflag : Bool)
    (h : mem pos = 99) :
    scanFmt (f + 1) mem args dirStart pos attri padc width precision lflag altflag =
      (runFmt f mem (takeArg args).2 (pos + 1) attri).map
        (fun out =>
          Emit.mk (((argInt (takeArg args).1) % ((2 : Int) ^ 32)).toNat ||| attri)
            attri false :: out) := by
  rw [scanFmt, h]
  norm_num

theorem scanFmt_e (f : Nat) (mem : Nat → Nat) (args : List Arg)
    (dirStart pos attri padc : Nat) (width precision : Int) (lflag : Nat) (altflag : Bool)
    (h : mem pos = 101) :
    scanFmt (f + 1) mem args dirStart pos attri padc width precision lflag altflag =
      match eConv f (argInt (takeArg args).1) with
      | none => none
      | some inner =>
        (runFmt f mem (takeArg args).2 (pos + 1) attri).map (fun out => inner ++ out) := by
  rw [scanFmt, h]
  norm_num

theorem scanFmt_s (f : Nat) (mem : Nat → Nat) (args : List Arg)
    (dirStart pos attri padc : Nat) (width precision : Int) (lflag : Nat) (altflag : Bool)
    (h : mem pos = 115) :
    scanFmt (f + 1) mem args dirStart pos attri padc width precision lflag altflag =
      (runFmt f mem (takeArg args).2 (pos + 1) attri).map
        (fun out =>
          emitS ((argStr (takeArg args).1).getD nullB) width precision altflag padc attri
            ++ out) := by
  rw [scanFmt, h]
  norm_num

theorem scanFmt_u (f : Nat) (mem : Nat → Nat) (args : List Arg)
    (dirStart pos attri padc : Nat) (width precision : Int) (lflag : Nat) (altflag : Bool)
    (h : mem pos = 117) :
    scanFmt (f + 1) mem args dirStart pos attri padc width precision lflag altflag =
      (runFmt f mem (takeArg args).2 (pos + 1) attri).map
        (fun out =>
          (printnum (getuint lflag (takeArg args).1) 10 width (padc ||| attri)).map
            (fun c => Emit.mk c attri false) ++ out) := by
  rw [scanFmt, h]
  norm_num

theorem scanFmt_o (f : Nat) (mem : Nat → Nat) (args : List Arg)
    (dirStart pos attri padc : Nat) (width precision : Int) (lflag : Nat) (altflag : Bool)
    (h : mem pos = 111) :
    scanFmt (f + 1) mem args dirStart pos attri padc width precision lflag altflag =
      (runFmt f mem (takeArg args).2 (pos + 1) attri).map
        (fun out =>
          (printnum (getuint lflag (takeArg args).1) 8 width (padc ||| attri)).map
            (fun c => Emit.mk c attri false) ++ out) := by
  rw [scanFmt, h]
  norm_num

theorem scanFmt_p (f : Nat) (mem : Nat → Nat) (args : List Arg)
    (dirStart pos attri padc : Nat) (width precision : Int) (lflag : Nat) (altflag : Bool)
    (h : mem pos = 112) :
    scanFmt (f + 1) mem args dirStart pos attri padc width precision lflag altflag =
      (runFmt f mem (takeArg args).2 (pos + 1) attri).map
        (fun out =>
          Emit.mk (48 ||| attri) attri false :: Emit.mk (120 ||| attri) attri false
            :: (printnum (argPtr (takeArg args).1 % 2 ^ 32) 16 width (padc ||| attri)).map
                (fun c => Emit.mk c attri false) ++ out) := by
  rw [scanFmt, h]
  norm_num

theorem scanFmt_x (f : Nat) (mem : Nat → Nat) (args : List Arg)
    (dirStart pos attri padc : Nat) (width precision : Int) (lflag : Nat) (altflag : Bool)
    (h : mem pos = 120) :
    scanFmt (f + 1) mem args dirStart pos attri padc width precision lflag altflag =
      (runFmt f mem (takeArg args).2 (pos + 1) attri).map
        (fun out =>
          (printnum (getuint lflag (takeArg args).1) 16 width (padc ||| attri)).map
            (fun c => Emit.mk c attri false) ++ out) := by
  rw [scanFmt, h]
  norm_num

theorem scanFmt_pct (f : Nat) (mem : Nat → Nat) (args : List Arg)
    (dirStart pos attri padc : Nat) (width precision : Int) (lflag : Nat) (altflag : Bool)
    (h : mem pos = 37) :
    scanFmt (f + 1) mem args dirStart pos attri padc width precision lflag altflag =
      (runFmt f mem args (pos + 1) attri).map
        (fun out => Emit.mk (37 ||| attri) attri false :: out) := by
  rw [scanFmt, h]
  norm_num

theorem scanFmt_B (f : Nat) (mem : Nat → Nat) (args : List Arg)
    (dirStart pos attri padc : Nat) (width precision : Int) (lflag : Nat) (altflag : Bool)
    (h : mem pos = 66) :
    scanFmt (f + 1) mem args dirStart pos attri padc width precision lflag altflag =
      runFmt f mem args (pos + 2) (applyB attri (mem (pos + 1))) := by
  rw [scanFmt, h]
  norm_num

theorem scanFmt_F (f : Nat) (mem : Nat → Nat) (args : List Arg)
    (dirStart pos attri padc : Nat) (width precision : Int) (lflag : Nat) (altflag : Bool)
    (h : mem pos = 70) :
    scanFmt (f + 1) mem args dirStart pos attri padc width precision lflag altflag =
      runFmt f mem args (pos + 2) (applyF attri (mem (pos + 1))) := by
  rw [scanFmt, h]
  norm_num

theorem scanFmt_C (f : Nat) (mem : Nat → Nat) (args : List Arg)
    (dirStart pos attri padc : Nat) (width precision : Int) (lflag : Nat) (altflag : Bool)
    (h : mem pos = 67) :
    scanFmt (f + 1) mem args dirStart pos attri padc width precision lflag altflag =
      runFmt f mem args (pos + 1) 0 := by
  rw [scanFmt, h]
  norm_num

theorem scanFmt_default (f : Nat) (mem : Nat → Nat) (args : List Arg)
    (dirStart pos attri padc : Nat) (width precision : Int) (lflag : Nat) (altflag : Bool)
    (hch : ¬ mem pos ∈
      [45, 48, 42, 46, 35, 108, 99, 101, 115, 100, 117, 111, 112, 120, 37, 66, 70, 67])
    (hdig : ¬ (49 ≤ mem pos ∧ mem pos ≤ 57)) :
    scanFmt (f + 1) mem args dirStart pos attri padc width precision lflag altflag =
      match rewindB f mem pos with
      | none => none
      | some pos2 =>
        (runFmt f mem args pos2 attri).map
          (fun out => Emit.mk (37 ||| attri) attri false :: out) := by
  simp only [List.mem_cons, List.mem_singleton, not_or] at hch
  obtain ⟨h45, h48, h42, h46, h35, h108, h99, h101, h115, h100, h117, h111, h112, h120,
    h37, h66, h70, h67, -⟩ := hch
  rw [scanFmt]
  simp only [if_neg h45, if_neg h48, if_neg hdig, if_neg h42, if_neg h46, if_neg h35,
    if_neg h108, if_neg h99, if_neg h101, if_neg h115, if_neg h100, if_neg h117,
    if_neg h111, if_neg h112, if_neg h120, if_neg h37, if_neg h66, if_neg h70, if_neg h67]

theorem printnum_mask (num base : Nat) (w : Int) (p a : Nat) (hb : 2 ≤ base)
    (ha : a &&& 0xff00 = a) : ∀ c ∈ printnum num base w (p ||| a), c ||| a = c := by
  intro c hc
  rw [printnum_eq base hb num w (p ||| a)] at hc
  rcases List.mem_append.mp hc with h1 | h2
  · rw [List.eq_of_mem_replicate h1]
    exact or_absorb p a
  · obtain ⟨d, hd, rfl⟩ := List.mem_map.mp h2
    exact or_mask_digit (hexdigit d) p a 0xff00 ha

theorem sContent_mask (p : List Nat) (prec : Int) (alt : Bool) (a : Nat) :
    ∀ t ∈ sContent p prec alt a, t.chr ||| t.att = t.chr := by
  intro t ht
  rw [sContent_eq p prec alt a] at ht
  obtain ⟨c, hc, rfl⟩ := List.mem_map.mp ht
  exact or_absorb _ a

theorem emitS_mask (p : List Nat) (w prec : Int) (alt : Bool) (padc a : Nat) :
    ∀ t ∈ emitS p w prec alt padc a, t.chr ||| t.att = t.chr := by
  intro t ht
  simp only [emitS] at ht
  split_ifs at ht
  · rcases List.mem_append.mp ht with h1 | h2
    · rcases List.mem_append.mp h1 with h3 | h4
      · rw [List.eq_of_mem_replicate h3]
        exact or_absorb padc a
      · exact sContent_mask p prec alt a t h4
    · rw [List.eq_of_mem_replicate h2]
      exact or_absorb 32 a
  · rcases List.mem_append.mp ht with h1 | h2
    · exact sContent_mask p prec alt a t h1
    · rw [List.eq_of_mem_replicate h2]
      exact or_absorb 32 a

theorem applyB_mask (a c : Nat) (ha : a &&& 0xff00 = a) :
    applyB a c &&& 0xff00 = applyB a c := by
  rw [applyB]
  split_ifs
  · exact or_mask a 0x1000 0xff00 ha (by decide)
  · exact or_mask a 0x2000 0xff00 ha (by decide)
  · exact or_mask a 0x4000 0xff00 ha (by decide)
  · exact or_mask a 0x8000 0xff00 ha (by decide)
  · exact and_mask a 0xffffefff 0xff00 ha
  · exact and_mask a 0xffffdfff 0xff00 ha
  · exact and_mask a 0xffffbfff 0xff00 ha
  · exact and_mask a 0xffff7fff 0xff00 ha
  · exact ha

theorem applyF_mask (a c : Nat) (ha : a &&& 0xff00 = a) :
    applyF a c &&& 0xff00 = applyF a c := by
  rw [applyF]
  split_ifs
  · exact or_mask a 0x100 0xff00 ha (by decide)
  · exact or_mask a 0x200 0xff00 ha (by decide)
  · exact or_mask a 0x400 0xff00 ha (by decide)
  · exact or_mask a 0x800 0xff00 ha (by decide)
  · exact and_mask a 0xfffffeff 0xff00 ha
  · exact and_mask a 0xfffffdff 0xff00 ha
  · exact and_mask a 0xfffffbff 0xff00 ha
  · exact and_mask a 0xfffff7ff 0xff00 ha
  · exact ha

/-- Everything the `%e` recursion emits is tagged `viaE`. -/
theorem eConv_viaE (f : Nat) (e : Int) (inner : List Emit) (h : eConv f e = some inner) :
    ∀ t ∈ inner, t.viaE = true := by
  cases f with
  | zero => exact absurd h (by simp [eConv])
  | succ g =>
    rw [eConv] at h
    split_ifs at h <;>
      · obtain ⟨r, hr, hout⟩ := Option.map_eq_some'.mp h
        subst hout
        intro t ht
        obtain ⟨u, hu, rfl⟩ := List.mem_map.mp ht
        rfl

theorem mask_prop_cons (x : Emit) (o : Option (List Emit)) (out : List Emit)
    (h : o.map (fun r => x :: r) = some out)
    (hx : x.viaE = false → x.chr ||| x.att = x.chr)
    (ho : ∀ r, o = some r → ∀ t ∈ r, t.viaE = false → t.chr ||| t.att = t.chr) :
    ∀ t ∈ out, t.viaE = false → t.chr ||| t.att = t.chr := by
  obtain ⟨r, hr, hout⟩ := Option.map_eq_some'.mp h
  subst hout
  intro t ht hv
  rcases List.mem_cons.mp ht with rfl | h2
  · exact hx hv
  · exact ho r hr t h2 hv

theorem mask_prop_append (L : List Emit) (o : Option (List Emit)) (out : List Emit)
    (h : o.map (fun r => L ++ r) = some out)
    (hL : ∀ t ∈ L, t.viaE = false → t.chr ||| t.att = t.chr)
    (ho : ∀ r, o = some r → ∀ t ∈ r, t.viaE = false → t.chr ||| t.att = t.chr) :
    ∀ t ∈ out, t.viaE = false → t.chr ||| t.att = t.chr := by
  obtain ⟨r, hr, hout⟩ := Option.map_eq_some'.mp h
  subst hout
  intro t ht hv
  rcases List.mem_append.mp ht with h1 | h2
  · exact hL t h1 hv
  · exact ho r hr t h2 hv

theorem mem_sign_case (t x : Emit) (c : Prop) [Decidable c]
    (h : t ∈ (if c then [x] else ([] : List Emit))) : t = x := by
  split at h
  · simpa using h
  · simp at h

/-- The attribute invariant: as long as the mask only ever holds bits in
0xff00 (which `%B`/`%F`/`%C` preserve from the initial 0), every character
the engine emits outside the `%e` recursion carries the mask that was
current at its emission OR'd into it. -/
theorem mask_invariant : ∀ f : Nat,
    (∀ (mem : Nat → Nat) (args : List Arg) (pos attri : Nat) (out : List Emit),
        attri &&& 0xff00 = attri →
        runFmt f mem args pos attri = some out →
        ∀ t ∈ out, t.viaE = false → t.chr ||| t.att = t.chr)
    ∧ (∀ (mem : Nat → Nat) (args : List Arg) (dirStart pos attri padc : Nat)
        (width precision : Int) (lflag : Nat) (altflag : Bool) (out : List Emit),
        attri &&& 0xff00 = attri →
        scanFmt f mem args dirStart pos attri padc width precision lflag altflag
          = some out →
        ∀ t ∈ out, t.viaE = false → t.chr ||| t.att = t.chr) := by
  intro f
  induction f with
  | zero =>
    constructor
    · intro mem args pos attri out hm hrun
      exact absurd hrun (by rw [runFmt]; simp)
    · intro mem args ds pos attri padc width precision lflag altflag out hm hscan
      exact absurd hscan (by rw [scanFmt]; simp)
  | succ f ih =>
    obtain ⟨ih1, ih2⟩ := ih
    constructor
    · intro mem args pos attri out hm hrun
      by_cases h0 : mem pos = 0
      · rw [runFmt_nul f mem args pos attri h0] at hrun
        simp only [Option.some_inj] at hrun
        subst hrun
        intro t ht
        exact absurd ht (List.not_mem_nil t)
      by_cases h37 : mem pos = 37
      · rw [runFmt_dir f mem args pos attri h37] at hrun
        exact ih2 mem args (pos + 1) (pos + 1) attri 32 (-1) (-1) 0 false out hm hrun
      rw [runFmt_lit f mem args pos attri h0 h37] at hrun
      exact mask_prop_cons _ _ _ hrun (fun _ => or_absorb (mem pos) attri)
        (fun r hr => ih1 mem args (pos + 1) attri r hm hr)
    · intro mem args ds pos attri padc width precision lflag altflag out hm hscan
      by_cases h45 : mem pos = 45
      · rw [scanFmt_minus f mem args ds pos attri padc width precision lflag altflag h45]
          at hscan
        exact ih2 _ _ _ _ _ _ _ _ _ _ _ hm hscan
      by_cases h48 : mem pos = 48
      · rw [scanFmt_zero f mem args ds pos attri padc width precision lflag altflag h48]
          at hscan
        exact ih2 _ _ _ _ _ _ _ _ _ _ _ hm hscan
      by_cases hdig : 49 ≤ mem pos ∧ mem pos ≤ 57
      · rw [scanFmt_digit f mem args ds pos attri padc width precision lflag altflag hdig]
          at hscan
        split at hscan
        · exact absurd hscan (by simp)
        · split_ifs at hscan
          · exact ih2 _ _ _ _ _ _ _ _ _ _ _ hm hscan
          · exact ih2 _ _ _ _ _ _ _ _ _ _ _ hm hscan
      by_cases h42 : mem pos = 42
      · rw [scanFmt_star f mem args ds pos attri padc width precision lflag altflag h42]
          at hscan
        split_ifs at hscan
        · exact ih2 _ _ _ _ _ _ _ _ _ _ _ hm hscan
        · exact ih2 _ _ _ _ _ _ _ _ _ _ _ hm hscan
      by_cases h46 : mem pos = 46
      · rw [scanFmt_dot f mem args ds pos attri padc width precision lflag altflag h46]
          at hscan
        exact ih2 _ _ _ _ _ _ _ _ _ _ _ hm hscan
      by_cases h35 : mem pos = 35
      · rw [scanFmt_hash f mem args ds pos attri padc width precision lflag altflag h35]
          at hscan
        exact ih2 _ _ _ _ _ _ _ _ _ _ _ hm hscan
      by_cases h108 : mem pos = 108
      · rw [scanFmt_l f mem args ds pos attri padc width precision lflag altflag h108]
          at hscan
        exact ih2 _ _ _ _ _ _ _ _ _ _ _ hm hscan
      by_cases h99 : mem pos = 99
      · rw [scanFmt_c f mem args ds pos attri padc width precision lflag altflag h99]
          at hscan
        exact mask_prop_cons _ _ _ hscan (fun _ => or_absorb _ attri)
          (fun r hr => ih1 _ _ _ _ r hm hr)
      by_cases h101 : mem pos = 101
      · rw [scanFmt_e f mem args ds pos attri padc width precision lflag altflag h101]
          at hscan
        cases he : eConv f (argInt (takeArg args).1) with
        | none => rw [he] at hscan; exact absurd hscan (by simp)
        | some inner =>
          rw [he] at hscan
          simp only [] at hscan
          refine mask_prop_append inner _ _ hscan ?_ (fun r hr => ih1 _ _ _ _ r hm hr)
          intro t htm hv
          exact absurd (eConv_viaE f _ inner he t htm) (by simp [hv])
      by_cases h115 : mem pos = 115
      · rw [scanFmt_s f mem args ds pos attri padc width precision lflag altflag h115]
          at hscan
        exact mask_prop_append _ _ _ hscan
          (fun t htm _ => emitS_mask _ width precision altflag padc attri t htm)
          (fun r hr => ih1 _ _ _ _ r hm hr)
      by_cases h100 : mem pos = 100
      · rw [scanFmt_d f mem args ds pos attri padc width precision lflag altflag h100]
          at hscan
        obtain ⟨r, hr, hout⟩ := Option.map_eq_some'.mp hscan
        subst hout
        intro t ht hv
        rcases List.mem_append.mp ht with h1 | h2
        · rcases List.mem_append.mp h1 with h3 | h4
          · rw [mem_sign_case t _ _ h3]
            exact or_absorb 45 attri
          · obtain ⟨c, hc, rfl⟩ := List.mem_map.mp h4
            exact printnum_mask _ 10 width padc attri (by norm_num) hm c hc
        · exact ih1 _ _ _ _ r hm hr t h2 hv
      by_cases h117 : mem pos = 117
      · rw [scanFmt_u f mem args ds pos attri padc width precision lflag altflag h117]
          at hscan
        obtain ⟨r, hr, hout⟩ := Option.map_eq_some'.mp hscan
        subst hout
        intro t ht hv
        rcases List.mem_append.mp ht with h1 | h2
        · obtain ⟨c, hc, rfl⟩ := List.mem_map.mp h1
          exact printnum_mask _ 10 width padc attri (by norm_num) hm c hc
        · exact ih1 _ _ _ _ r hm hr t h2 hv
      by_cases h111 : mem pos = 111
      · rw [scanFmt_o f mem args ds pos attri padc width precision lflag altflag h111]
          at hscan
        obtain ⟨r, hr, hout⟩ := Option.map_eq_some'.mp hscan
        subst hout
        intro t ht hv
        rcases List.mem_append.mp ht with h1 | h2
        · obtain ⟨c, hc, rfl⟩ := List.mem_map.mp h1
          exact printnum_mask _ 8 width padc attri (by norm_num) hm c hc
        · exact ih1 _ _ _ _ r hm hr t h2 hv
      by_cases h112 : mem pos = 112
      · rw [scanFmt_p f mem args ds pos attri padc width precision lflag altflag h112]
          at hscan
        obtain ⟨r, hr, hout⟩ := Option.map_eq_some'.mp hscan
        subst hout
        intro t ht hv
        rcases List.mem_cons.mp ht with rfl | ht2
        · exact or_absorb 48 attri
        rcases List.mem_cons.mp ht2 with rfl | ht3
        · exact or_absorb 120 attri
        rcases List.mem_append.mp ht3 with h1 | h2
        · obtain ⟨c, hc, rfl⟩ := List.mem_map.mp h1
          exact printnum_mask _ 16 width padc attri (by norm_num) hm c hc
        · exact ih1 _ _ _ _ r hm hr t h2 hv
      by_cases h120 : mem pos = 120
      · rw [scanFmt_x f mem args ds pos attri padc width precision lflag altflag h120]
          at hscan
        obtain ⟨r, hr, hout⟩ := Option.map_eq_some'.mp hscan
        subst hout
        intro t ht hv
        rcases List.mem_append.mp ht with h1 | h2
        · obtain ⟨c, hc, rfl⟩ := List.mem_map.mp h1
          exact printnum_mask _ 16 width padc attri (by norm_num) hm c hc
        · exact ih1 _ _ _ _ r hm hr t h2 hv
      by_cases h37 : mem pos = 37
      · rw [scanFmt_pct f mem args ds pos attri padc width precision lflag altflag h37]
          at hscan
        exact mask_prop_cons _ _ _ hscan (fun _ => or_absorb 37 attri)
          (fun r hr => ih1 _ _ _ _ r hm hr)
      by_cases h66 : mem pos = 66
      · rw [scanFmt_B f mem args ds pos attri padc width precision lflag altflag h66]
          at hscan
        exact ih1 _ _ _ _ _ (applyB_mask attri (mem (pos + 1)) hm) hscan
      by_cases h70 : mem pos = 70
      · rw [scanFmt_F f mem args ds pos attri padc width precision lflag altflag h70]
          at hscan
        exact ih1 _ _ _ _ _ (applyF_mask attri (mem (pos + 1)) hm) hscan
      by_cases h67 : mem pos = 67
      · rw [scanFmt_C f mem args ds pos attri padc width precision lflag altflag h67]
          at hscan
        exact ih1 _ _ _ _ _ (by decide) hscan
      · have hch : ¬ mem pos ∈
            [45, 48, 42, 46, 35, 108, 99, 101, 115, 100, 117, 111, 112, 120, 37, 66, 70,
              67] := by
          simp only [List.mem_cons, List.mem_singleton, not_or]
          exact ⟨h45, h48, h42, h46, h35, h108, h99, h101, h115, h100, h117, h111, h112,
            h120, h37, h66, h70, h67, List.not_mem_nil _⟩
        rw [scanFmt_default f mem args ds pos attri padc width precision lflag altflag
          hch hdig] at hscan
        cases hrw : rewindB f mem pos with
        | none => rw [hrw] at hscan; exact absurd hscan (by simp)
        | some pos2 =>
          rw [hrw] at hscan
          simp only [] at hscan
          exact mask_prop_cons _ _ _ hscan (fun _ => or_absorb 37 attri)
            (fun r hr => ih1 _ _ _ _ r hm hr)

/-- C3 (counterexample): formatting `"%BR%ex"` with code 999 — `%BR` sets
the background-red bit 0x4000 and no `%C` follows, so the mask is 0x4000
for the rest of the call (visible on the final literal `x`, emitted as
`120 ||| 0x4000` with mask-at-emission 0x4000); yet every character of the
`%e` output (`"error 999"`, the first being `e` = 101) is emitted with
mask-at-emission 0 and does not carry bit 0x4000, because `%e` delegates
to a recursive `printfmt` call whose local `attri` starts at 0.  This
refutes the claim that the output produced by an intervening `%e`
conversion carries the current attribute mask. -/
theorem C3_counterexample_e_drops_mask :
    runFmt 80 (cstr (strBytes "%BR%ex")) [Arg.int 999] 0 0 =
        some (eTagged (strBytes "error 999") ++ [Emit.mk (120 ||| 0x4000) 0x4000 false])
      ∧ (eTagged (strBytes "error 999")).head? = some (Emit.mk 101 0 true)
      ∧ ¬ (101 ||| 0x4000 = 101) ∧ ¬ ((0x4000 : Nat) = 0) := by
  refine ⟨by decide, by decide, by decide, by decide⟩

/-- C3 (amended): whenever the attribute mask only carries bits in 0xff00
(true of every reachable mask, since it starts at 0 and `%B`/`%F`/`%C`
preserve this), every character the formatting call emits outside a `%e`
conversion — literal text, conversion output and pad characters — carries
the mask current at its emission OR'd into its high bits (first conjunct);
`%C` resets the mask to zero and continues scanning (second conjunct); the
output of an intervening `%e` conversion is produced by a recursive
formatting call whose attribute state starts at zero, and is exactly the
`viaE`-tagged part of the output (third conjunct), so it does not carry
the outer mask. -/
theorem C3_mask_amended (f : Nat) (mem : Nat → Nat) (args : List Arg)
    (dirStart pos attri padc : Nat) (width precision : Int) (lflag : Nat) (altflag : Bool)
    (out : List Emit) (hm : attri &&& 0xff00 = attri) :
    (runFmt f mem args pos attri = some out →
        ∀ t ∈ out, t.viaE = false → t.chr ||| t.att = t.chr)
      ∧ (mem pos = 67 →
          scanFmt (f + 1) mem args dirStart pos attri padc width precision lflag altflag
            = runFmt f mem args (pos + 1) 0)
      ∧ (∀ (e : Int) (inner : List Emit), eConv f e = some inner →
          ∀ t ∈ inner, t.viaE = true) :=
  ⟨fun hrun => (mask_invariant f).1 mem args pos attri out hm hrun,
    fun h67 => scanFmt_C f mem args dirStart pos attri padc width precision lflag altflag h67,
    fun e inner he => eConv_viaE f e inner he⟩

/-- Witness for C3 (amended) at the concrete `%C` directive of `"%C"`. -/
theorem C3_mask_amended_witness :
    scanFmt 21 (cstr (strBytes "%C")) [] 1 1 0 32 (-1) (-1) 0 false
      = runFmt 20 (cstr (strBytes "%C")) [] 2 0 :=
  (C3_mask_amended 20 (cstr (strBytes "%C")) [] 1 1 0 32 (-1) (-1) 0 false []
    (by decide)).2.1 (by decide)
